import Mathlib

/-!
Shallow embedding of the data-cleaning ETL script (src/etl.py) of the
macroeconomics repository, together with proofs checking the claims of its
natural-language specification.

The script works on a pandas DataFrame.  A DataFrame is embedded as an ordered
list of named columns, each column an ordered list of cells; a cell is either
the null marker (pandas NaN/NaT, embedded as `Option.none`) or a value, which
is numeric (embedded as a rational) or text.  A ConfigParser object is embedded
as the association list from section name to the value of that section's
`strategy` key (the script reads only that key; per the spec every section
defines it, and ConfigParser keeps section names unique).
-/

set_option autoImplicit false

namespace Etl

/-- A value held in a DataFrame cell: numeric (int/float, embedded as a
rational) or text.  Temporal values are ordinals, covered by `num`. -/
inductive Val where
  | num (q : ℚ)
  | str (s : String)
deriving DecidableEq

/-- A DataFrame cell: `none` is the pandas null marker (NaN/NaT). -/
abbrev Cell := Option Val

/-- One DataFrame column: its header name and its cells in row order. -/
structure Column where
  name : String
  cells : List Cell
deriving DecidableEq

/-- A DataFrame: ordered list of columns.  All columns of a well-formed frame
have the same number of cells (the row count). -/
abbrev Dataset := List Column

/-- The embedding of a ConfigParser object: section name to the value of the
section's `strategy` key. -/
structure Config where
  sections : List (String × String)
deriving DecidableEq

/-- Python `str.strip()`: drop leading and trailing whitespace. -/
def pyStrip (s : String) : String :=
  ⟨((s.data.dropWhile Char.isWhitespace).reverse.dropWhile Char.isWhitespace).reverse⟩

/-- Python `str.lower()` on the ASCII identifiers that appear here. -/
def pyLower (s : String) : String :=
  ⟨s.data.map Char.toLower⟩

/-- The spec's notion of a missing value (glossary): the null marker, or, for
text columns, the empty string. -/
def isMissingValue (c : Cell) : Bool :=
  match c with
  | none => true
  | some (Val.str s) => decide (s = "")
  | some (Val.num _) => false

/-- Find the first column with the given header name, as pandas
`df[name]` does for a name taken from `df.columns`. -/
def getCol (df : Dataset) (name : String) : Option Column :=
  df.find? (fun col => col.name = name)

/-- Translation of `find_columns_with_missing_data` (src/etl.py lines 10-21):
collect, in column order, the names of the columns for which
`df[column].isnull().any() or (df[column] == '').any()` holds.  Comparing a
numeric cell with the empty string is `False` in pandas, and NaN compares
unequal to everything, so the second disjunct holds exactly on cells equal to
the text value `''`. -/
def find_columns_with_missing_data (df : Dataset) : List String :=
  df.foldl
    (fun acc col =>
      if col.cells.any (fun c => c.isNone)
          || col.cells.any (fun c => c = some (Val.str "")) then
        acc ++ [col.name]
      else acc)
    []

/-! ### The pandas column operations used by `input_missing_data` -/

/-- Pandas `Series.fillna(v)`: replace every null cell by `v`.  Cells holding a
value, the empty text value included, are untouched. -/
def fillna (v : Val) (cs : List Cell) : List Cell :=
  cs.map (fun c => some (c.getD v))

/-- The numeric values of a column, nulls skipped. -/
def numVals (cs : List Cell) : List ℚ :=
  cs.filterMap (fun c =>
    match c with
    | some (Val.num q) => some q
    | _ => none)

/-- Whether the column holds any text value (pandas object dtype with strings);
`Series.mean`, `Series.median` and `Series.interpolate` raise a `TypeError` on
such data. -/
def hasStrVal (cs : List Cell) : Bool :=
  cs.any (fun c =>
    match c with
    | some (Val.str _) => true
    | _ => false)

/-- Pandas `Series.mean()` over the non-null values; `none` embeds the NaN
result on an empty list of values. -/
def meanQ (l : List ℚ) : Option ℚ :=
  if l.isEmpty then none else some (l.sum / l.length)

/-- Insertion into a sorted list of rationals. -/
def insertSorted (x : ℚ) : List ℚ → List ℚ
  | [] => [x]
  | y :: ys => if x ≤ y then x :: y :: ys else y :: insertSorted x ys

/-- Insertion sort, used to take the median. -/
def sortQ (l : List ℚ) : List ℚ :=
  l.foldr insertSorted []

/-- Pandas `Series.median()` over the non-null values: middle element of the
sorted values for odd count, average of the two middle elements for even
count; `none` embeds the NaN result on an empty list. -/
def medianQ (l : List ℚ) : Option ℚ :=
  let s := sortQ l
  match s with
  | [] => none
  | _ :: _ =>
    if l.length % 2 = 1 then s.get? (l.length / 2)
    else
      match s.get? (l.length / 2 - 1), s.get? (l.length / 2) with
      | some a, some b => some ((a + b) / 2)
      | _, _ => none

/-- The non-null values of a column in row order (`Series.mode` drops nulls;
the empty text value is an ordinary value to it). -/
def nonNullVals (cs : List Cell) : List Val :=
  cs.filterMap id

/-- Pandas `df[column].mode()[0]`: a most frequent non-null value, `none` when
the column has no non-null value (then `mode()` is an empty Series and the
`[0]` lookup raises a `KeyError`).  Among equally frequent values pandas
returns the smallest under its sort; which tied value is picked decides no
claim, and the embedding keeps the first one in row order. -/
def modeVal (cs : List Cell) : Option Val :=
  (nonNullVals cs).foldl
    (fun best v =>
      match best with
      | none => some v
      | some b =>
        if (nonNullVals cs).count b < (nonNullVals cs).count v then some v
        else some b)
    none

/-- Helper for `ffill`: `last` is the most recent non-null cell seen so far. -/
def ffillFrom : Cell → List Cell → List Cell
  | _, [] => []
  | last, c :: rest =>
    match c with
    | some v => some v :: ffillFrom (some v) rest
    | none => last :: ffillFrom last rest

/-- Pandas `Series.ffill()`: replace each null cell by the nearest earlier
non-null cell, leaving it null when every earlier cell is null. -/
def ffill (cs : List Cell) : List Cell :=
  ffillFrom none cs

/-- The first non-null cell of a column, `none` when all cells are null. -/
def firstValid : List Cell → Cell
  | [] => none
  | some v :: _ => some v
  | none :: rest => firstValid rest

/-- Pandas `Series.bfill()`: replace each null cell by the nearest later
non-null cell, leaving it null when every later cell is null. -/
def bfill : List Cell → List Cell
  | [] => []
  | some v :: rest => some v :: bfill rest
  | none :: rest => firstValid rest :: bfill rest

/-- The last non-null cell of a column, `none` when all cells are null. -/
def lastValid (cs : List Cell) : Cell :=
  cs.foldl
    (fun acc c =>
      match c with
      | none => acc
      | some v => some v)
    none

/-! ### Interpolation

The script hands `nearest`, `linear`, `slinear`, `quadratic` and `cubic` to
`Series.interpolate(method=...)`, which is pandas/scipy library code, not code
of this repository.  Modelled from the spec (section 4.3): the named methods
fill interior missing numeric entries by curve fitting over row position —
linear interpolation between the bracketing known points for
`linear`/`slinear`, the closer bracketing point for `nearest`, a local
polynomial through nearby known points for `quadratic`/`cubic` (which need at
least 3 resp. 4 known points) — and boundary missing values outside the span
of known points are left unfilled.  A text column raises a `TypeError`.  No
claim depends on the fitted value, only on shape and on the error behaviour. -/

/-- The known (row position, numeric value) points of a column. -/
def knownPoints (cs : List Cell) : List (ℕ × ℚ) :=
  cs.enum.filterMap (fun p =>
    match p.2 with
    | some (Val.num q) => some (p.1, q)
    | _ => none)

/-- Evaluation of the interpolation polynomial through the given points. -/
def lagrangeEval (pts : List (ℕ × ℚ)) (x : ℚ) : ℚ :=
  (pts.map (fun p =>
    p.2 * ((pts.filter (fun q => q.1 != p.1)).map
      (fun q => (x - (q.1 : ℚ)) / ((p.1 : ℚ) - (q.1 : ℚ)))).prod)).sum

/-- The fitted value at interior row position `i` for the given method. -/
def interpAt (method : String) (pts : List (ℕ × ℚ)) (i : ℕ) : Option ℚ :=
  let left := pts.filter (fun p => decide (p.1 ≤ i))
  let right := pts.filter (fun p => decide (i ≤ p.1))
  match left.getLast?, right.head? with
  | some l, some r =>
    if method = "nearest" then
      some (if i - l.1 ≤ r.1 - i then l.2 else r.2)
    else if method = "quadratic" ∨ method = "cubic" then
      let need : ℕ := if method = "cubic" then 4 else 3
      let anchors := (left.reverse.take (need - need / 2)).reverse
        ++ right.take (need / 2)
      some (lagrangeEval anchors (i : ℚ))
    else
      some (l.2 + (r.2 - l.2) * (((i : ℚ) - (l.1 : ℚ)) / ((r.1 : ℚ) - (l.1 : ℚ))))
  | _, _ => none

/-- The cells after interpolation: interior nulls are filled with the fitted
value, nulls outside the span of known points stay null, cells holding a value
are untouched. -/
def interpCells (method : String) (cs : List Cell) : List Cell :=
  let pts := knownPoints cs
  match pts.head?, pts.getLast? with
  | some lo, some hi =>
    cs.enum.map (fun p =>
      match p.2 with
      | some v => some v
      | none =>
        if lo.1 < p.1 ∧ p.1 < hi.1 then (interpAt method pts p.1).map Val.num
        else none)
  | _, _ => cs

/-- Pandas `Series.interpolate(method)` on a column: error on text data and on
too few known points for the spline methods, otherwise `interpCells`. -/
def interpolate (method : String) (cs : List Cell) : Except String (List Cell) :=
  if hasStrVal cs then
    Except.error "cannot interpolate with object dtype"
  else if method = "quadratic" ∧ (knownPoints cs).length < 3 then
    Except.error "quadratic spline needs at least 3 known points"
  else if method = "cubic" ∧ (knownPoints cs).length < 4 then
    Except.error "cubic spline needs at least 4 known points"
  else
    Except.ok (interpCells method cs)

/-! ### The imputation engine -/

/-- Pandas `df.loc[:, name] = f(df[name])`: rewrite the cells of the column(s)
with the given header name, leaving every other column alone. -/
def updateCells (df : Dataset) (name : String) (f : List Cell → List Cell) : Dataset :=
  df.map (fun col => if col.name = name then ⟨col.name, f col.cells⟩ else col)

/-- Keep the cells whose mask entry is `true` (row selection). -/
def applyMask (mask : List Bool) (cs : List Cell) : List Cell :=
  ((cs.zip mask).filter (fun p => p.2)).map (fun p => p.1)

/-- Pandas `df.dropna(subset=[name])`: drop, from every column of the frame,
the rows at which the named column is null.  The name always names a column of
`df` at the call site (it is drawn from `df.columns`). -/
def dropnaSubset (df : Dataset) (name : String) : Dataset :=
  match getCol df name with
  | none => df
  | some target =>
    let mask := target.cells.map Option.isSome
    df.map (fun col => ⟨col.name, applyMask mask col.cells⟩)

/-- The closed set of recognized strategy identifiers (src/etl.py lines
52-68). -/
def strategySet : List String :=
  ["mean", "median", "mode", "zero", "remove", "ffill", "bfill",
   "nearest", "linear", "slinear", "quadratic", "cubic"]

/-- Translation of the dispatch on one configured column (src/etl.py lines
50-70), `strategy` already lower-cased.  `Except.error` carries the message of
the exception the branch raises. -/
def dispatch (strategy : String) (colName : String) (df : Dataset) :
    Except String Dataset :=
  let cells := ((getCol df colName).map Column.cells).getD []
  if strategy = "mean" then
    if hasStrVal cells then
      Except.error "could not convert string to float"
    else
      match meanQ (numVals cells) with
      | some m => Except.ok (updateCells df colName (fillna (Val.num m)))
      | none => Except.ok df
  else if strategy = "median" then
    if hasStrVal cells then
      Except.error "could not convert string to float"
    else
      match medianQ (numVals cells) with
      | some m => Except.ok (updateCells df colName (fillna (Val.num m)))
      | none => Except.ok df
  else if strategy = "mode" then
    match modeVal cells with
    | some m => Except.ok (updateCells df colName (fillna m))
    | none => Except.error "index 0 out of bounds on empty mode"
  else if strategy = "zero" then
    Except.ok (updateCells df colName (fillna (Val.num 0)))
  else if strategy = "remove" then
    Except.ok (dropnaSubset df colName)
  else if strategy = "ffill" then
    Except.ok (updateCells df colName ffill)
  else if strategy = "bfill" then
    Except.ok (updateCells df colName bfill)
  else if strategy = "nearest" ∨ strategy = "linear" ∨ strategy = "slinear"
      ∨ strategy = "quadratic" ∨ strategy = "cubic" then
    match interpolate strategy cells with
    | Except.ok _ => Except.ok (updateCells df colName (interpCells strategy))
    | Except.error e => Except.error e
  else
    Except.error ("invalid strategy (" ++ strategy ++ ")")

/-- Translation of one iteration of the loop of `input_missing_data`
(src/etl.py lines 48-70): a column whose stripped name is no config section is
skipped; otherwise its strategy is read, lower-cased and dispatched. -/
def processColumn (config : Config) (df : Dataset) (colName : String) :
    Except String Dataset :=
  match config.sections.lookup (pyStrip colName) with
  | none => Except.ok df
  | some raw => dispatch (pyLower raw) colName df

/-- The error the broad handler of `input_missing_data` logs: the loop
variable `column` at the time of the exception, and the exception text. -/
structure EtlError where
  column : String
  message : String
deriving DecidableEq

/-- The loop of `input_missing_data` over the column names of the original
frame (the iterator of `for column in df.columns` is built once, before any
`remove` rebinds `df`; dropping rows never renames columns). -/
def runColumns (config : Config) : List String → Dataset → Except EtlError Dataset
  | [], df => Except.ok df
  | n :: rest, df =>
    match processColumn config df n with
    | Except.error msg => Except.error ⟨n, msg⟩
    | Except.ok df2 => runColumns config rest df2

/-- Translation of `input_missing_data` (src/etl.py lines 39-75): on success
the cleaned frame is returned; any exception is caught by the broad handler,
logged, and the function falls off the end, returning Python `None`
(`Option.none`). -/
def input_missing_data (df : Dataset) (config : Config) : Option Dataset :=
  match runColumns config (df.map Column.name) df with
  | Except.ok d => some d
  | Except.error _ => none

/-- Line 84 of src/etl.py: `data.columns = data.columns.str.strip()`. -/
def stripColumns (df : Dataset) : Dataset :=
  df.map (fun c => ⟨pyStrip c.name, c.cells⟩)

/-- The line the broad handler logs on an exception (src/etl.py line 75). -/
def etlErrorLine (e : EtlError) : String :=
  "inputting missing data for " ++ e.column ++ ": " ++ e.message

/-- The observable outcome of the `__main__` block: the written output file
(`none` when no file is produced) and the error log lines. -/
structure RunResult where
  outputFile : Option Dataset
  errorLog : List String
deriving DecidableEq

/-- Translation of the `__main__` block after the CSV load (src/etl.py lines
84-97): strip the column names, run `input_missing_data`, and write the result
with `to_csv`.  When `input_missing_data` returned `None`, `None.to_csv`
raises an `AttributeError`, the handler of lines 95-96 catches it, logs
`Data Cleaning process failed` and no output file is produced. -/
def runEtl (data : Dataset) (config : Config) : RunResult :=
  let data2 := stripColumns data
  match runColumns config (data2.map Column.name) data2 with
  | Except.ok cleaned => { outputFile := some cleaned, errorLog := [] }
  | Except.error e =>
    { outputFile := none
      errorLog := [etlErrorLine e, "Data Cleaning process failed"] }

/-- The empty configuration (a fresh ConfigParser with no sections). -/
def emptyConfig : Config := ⟨[]⟩

/-- What the configuration path resolves to when `read_config` runs: the file
is missing or unreadable, the file opens but is not parseable, or it parses to
a configuration. -/
inductive ConfigSource where
  | absent
  | malformed
  | wellFormed (c : Config)

/-- Translation of `read_config` (src/etl.py lines 23-37), with the Python
stdlib semantics of `ConfigParser.read`: a path that cannot be opened is
silently skipped (the parser stays empty and no exception is raised), while a
file that opens but does not parse raises; the surrounding `except` logs and
re-raises.  The `Except.error` carries the propagated exception. -/
def read_config : ConfigSource → Except String Config
  | ConfigSource.absent => Except.ok emptyConfig
  | ConfigSource.malformed => Except.error "ParsingError"
  | ConfigSource.wellFormed c => Except.ok c

/-! ### Small derived notions used to state the claims -/

/-- A column with no null cells. -/
def noNulls (cs : List Cell) : Bool :=
  cs.all Option.isSome

/-- The row count of a frame (all columns of a well-formed frame agree). -/
def numRows (df : Dataset) : ℕ :=
  ((df.head?.map (fun c => c.cells.length)).getD 0)

/-- Whether `pat` occurs as a contiguous run at the start of `s`. -/
def charRunAt : List Char → List Char → Bool
  | [], _ => true
  | _ :: _, [] => false
  | a :: as, b :: bs => a == b && charRunAt as bs

/-- Whether `pat` occurs contiguously anywhere in `s`. -/
def charRunIn (pat : List Char) : List Char → Bool
  | [] => pat.isEmpty
  | c :: rest => charRunAt pat (c :: rest) || charRunIn pat rest

/-- Whether the text `pat` occurs inside the text `s` (used to state that an
error message does or does not name a column or identifier). -/
def containsSub (s pat : String) : Bool :=
  charRunIn pat.data s.data

/-! ### Lemmas about the column operations -/

theorem length_fillna (v : Val) (cs : List Cell) :
    (fillna v cs).length = cs.length := by
  simp [fillna]

theorem noNulls_fillna (v : Val) (cs : List Cell) :
    noNulls (fillna v cs) = true := by
  simp [fillna, noNulls, List.all_eq_true]

theorem length_ffillFrom (cs : List Cell) : ∀ last : Cell,
    (ffillFrom last cs).length = cs.length := by
  induction cs with
  | nil => intro last; rfl
  | cons c rest ih =>
    intro last
    cases c <;> simp [ffillFrom, ih]

theorem length_ffill (cs : List Cell) : (ffill cs).length = cs.length :=
  length_ffillFrom cs none

theorem length_bfill (cs : List Cell) : (bfill cs).length = cs.length := by
  induction cs with
  | nil => rfl
  | cons c rest ih => cases c <;> simp [bfill, ih]

/-- Helper: `lastValid` with the fold started from an arbitrary accumulator. -/
def lastValidFrom (init : Cell) (cs : List Cell) : Cell :=
  cs.foldl
    (fun acc c =>
      match c with
      | none => acc
      | some v => some v)
    init

theorem lastValid_eq_from (cs : List Cell) : lastValid cs = lastValidFrom none cs := rfl

theorem ffillFrom_getD (cs : List Cell) : ∀ (last : Cell) (i : ℕ), i < cs.length →
    (ffillFrom last cs).getD i none =
      (match cs.getD i none with
        | some v => some v
        | none => lastValidFrom last (cs.take i)) := by
  induction cs with
  | nil => intro last i h; exact absurd h (by simp)
  | cons c rest ih =>
    intro last i h
    cases i with
    | zero => cases c <;> simp [ffillFrom, lastValidFrom]
    | succ i =>
      have h' : i < rest.length := by simpa using h
      cases c with
      | none =>
        simpa [ffillFrom, lastValidFrom, List.foldl_cons] using ih last i h'
      | some v =>
        simpa [ffillFrom, lastValidFrom, List.foldl_cons] using ih (some v) i h'

theorem ffill_getD (cs : List Cell) (i : ℕ) (h : i < cs.length) :
    (ffill cs).getD i none =
      (match cs.getD i none with
        | some v => some v
        | none => lastValid (cs.take i)) := by
  rw [lastValid_eq_from]
  exact ffillFrom_getD cs none i h

theorem bfill_getD (cs : List Cell) : ∀ i : ℕ, i < cs.length →
    (bfill cs).getD i none =
      (match cs.getD i none with
        | some v => some v
        | none => firstValid (cs.drop (i + 1))) := by
  induction cs with
  | nil => intro i h; exact absurd h (by simp)
  | cons c rest ih =>
    intro i h
    cases i with
    | zero => cases c <;> simp [bfill, firstValid]
    | succ i =>
      have h' : i < rest.length := by simpa using h
      cases c with
      | none => simpa [bfill] using ih i h'
      | some v => simpa [bfill] using ih i h'

theorem getD_some_lt {cs : List Cell} {i : ℕ} {v : Val}
    (h : cs.getD i none = some v) : i < cs.length := by
  by_contra hlt
  have : cs.get? i = none := List.get?_eq_none.mpr (Nat.le_of_not_lt hlt)
  rw [List.getD_eq_getElem?_getD, ← List.get?_eq_getElem?, this] at h
  simp at h

theorem ffill_preserves_some {cs : List Cell} {i : ℕ} {v : Val}
    (h : cs.getD i none = some v) : (ffill cs).getD i none = some v := by
  rw [ffill_getD cs i (getD_some_lt h), h]

theorem bfill_preserves_some {cs : List Cell} {i : ℕ} {v : Val}
    (h : cs.getD i none = some v) : (bfill cs).getD i none = some v := by
  rw [bfill_getD cs i (getD_some_lt h), h]

theorem ffillFrom_idem (cs : List Cell) : ∀ last : Cell,
    ffillFrom last (ffillFrom last cs) = ffillFrom last cs := by
  induction cs with
  | nil => intro last; rfl
  | cons c rest ih =>
    intro last
    cases c with
    | some v => simp [ffillFrom, ih (some v)]
    | none =>
      cases last with
      | none => simp [ffillFrom, ih none]
      | some w => simp [ffillFrom, ih (some w)]

theorem ffill_idem (cs : List Cell) : ffill (ffill cs) = ffill cs :=
  ffillFrom_idem cs none

theorem firstValid_bfill (cs : List Cell) : firstValid (bfill cs) = firstValid cs := by
  induction cs with
  | nil => rfl
  | cons c rest ih =>
    cases c with
    | some v => simp [bfill, firstValid]
    | none =>
      cases hf : firstValid rest with
      | some v => simp [bfill, hf, firstValid]
      | none => simp [bfill, hf, firstValid, ih]

theorem bfill_idem (cs : List Cell) : bfill (bfill cs) = bfill cs := by
  induction cs with
  | nil => rfl
  | cons c rest ih =>
    cases c with
    | some v => simp [bfill, ih]
    | none =>
      cases hf : firstValid rest with
      | some v => simp [bfill, hf, ih]
      | none => simp [bfill, hf, firstValid_bfill, ih]

theorem fillna_preserves_some (v : Val) : ∀ (cs : List Cell) (j : ℕ) (w : Val),
    cs.getD j none = some w → (fillna v cs).getD j none = some w := by
  intro cs
  induction cs with
  | nil => intro j w h; simp at h
  | cons c rest ih =>
    intro j w h
    cases j with
    | zero =>
      have hc : c = some w := by simpa using h
      rw [hc]
      rfl
    | succ j => exact ih j w (by simpa using h)

theorem enumFrom_map_getD (g : ℕ × Cell → Cell)
    (hg : ∀ (i : ℕ) (w : Val), g (i, some w) = some w) :
    ∀ (cs : List Cell) (k j : ℕ) (v : Val), cs.getD j none = some v →
      ((cs.enumFrom k).map g).getD j none = some v := by
  intro cs
  induction cs with
  | nil => intro k j v h; simp at h
  | cons c rest ih =>
    intro k j v h
    cases j with
    | zero =>
      have hc : c = some v := by simpa using h
      rw [List.enumFrom, List.map_cons, hc]
      simpa using hg k v
    | succ j =>
      rw [List.enumFrom, List.map_cons]
      simpa using ih (k + 1) j v (by simpa using h)

theorem interpCells_preserves_some (method : String) (cs : List Cell) (j : ℕ)
    (v : Val) (h : cs.getD j none = some v) :
    (interpCells method cs).getD j none = some v := by
  rw [interpCells]
  split
  · exact enumFrom_map_getD _ (fun i w => rfl) cs 0 j v h
  · exact h

/-! ### Lemmas about row selection -/

theorem applyMask_nil_left (mask : List Bool) : applyMask mask [] = [] := by
  simp [applyMask]

theorem applyMask_cons (b : Bool) (mask : List Bool) (c : Cell) (cs : List Cell) :
    applyMask (b :: mask) (c :: cs) =
      if b then c :: applyMask mask cs else applyMask mask cs := by
  cases b <;> simp [applyMask]

theorem applyMask_sublist (mask : List Bool) : ∀ cs : List Cell,
    (applyMask mask cs).Sublist cs := by
  induction mask with
  | nil => intro cs; simp [applyMask]
  | cons b ms ih =>
    intro cs
    cases cs with
    | nil => simp [applyMask]
    | cons c rest =>
      rw [applyMask_cons]
      cases b with
      | true => simpa using (ih rest).cons₂ c
      | false => simpa using (ih rest).cons c

theorem mem_applyMask {mask : List Bool} {cs : List Cell} {c : Cell}
    (h : c ∈ applyMask mask cs) : c ∈ cs :=
  (applyMask_sublist mask cs).mem h

theorem noNulls_applyMask {mask : List Bool} {cs : List Cell}
    (h : noNulls cs = true) : noNulls (applyMask mask cs) = true := by
  rw [noNulls, List.all_eq_true] at h ⊢
  exact fun c hc => h c (mem_applyMask hc)

theorem applyMask_self (cs : List Cell) :
    applyMask (cs.map Option.isSome) cs = cs.filter (fun c => c.isSome) := by
  induction cs with
  | nil => rfl
  | cons c rest ih =>
    rw [List.map_cons, applyMask_cons]
    cases c <;> simp [ih]

theorem applyMask_length_congr (mask : List Bool) : ∀ cs₁ cs₂ : List Cell,
    cs₁.length = cs₂.length →
    (applyMask mask cs₁).length = (applyMask mask cs₂).length := by
  induction mask with
  | nil => intro cs₁ cs₂ _; simp [applyMask]
  | cons b ms ih =>
    intro cs₁ cs₂ h
    cases cs₁ with
    | nil =>
      cases cs₂ with
      | nil => rfl
      | cons c₂ r₂ => simp at h
    | cons c₁ r₁ =>
      cases cs₂ with
      | nil => simp at h
      | cons c₂ r₂ =>
        have h' : r₁.length = r₂.length := by simpa using h
        rw [applyMask_cons, applyMask_cons]
        cases b <;> simp [ih r₁ r₂ h']

/-! ### Existence of the fill value for the statistic strategies -/

theorem meanQ_isSome {l : List ℚ} (h : l ≠ []) : ∃ q, meanQ l = some q := by
  refine ⟨l.sum / l.length, ?_⟩
  simp [meanQ, h]

theorem length_insertSorted (x : ℚ) : ∀ l : List ℚ,
    (insertSorted x l).length = l.length + 1 := by
  intro l
  induction l with
  | nil => rfl
  | cons y ys ih =>
    by_cases h : x ≤ y <;> simp [insertSorted, h, ih]

theorem length_sortQ (l : List ℚ) : (sortQ l).length = l.length := by
  induction l with
  | nil => rfl
  | cons x xs ih =>
    rw [sortQ, List.foldr_cons, length_insertSorted]
    rw [sortQ] at ih
    rw [ih]
    rfl

theorem medianQ_isSome {l : List ℚ} (h : l ≠ []) : ∃ q, medianQ l = some q := by
  have hlen : 0 < l.length := List.length_pos.mpr h
  have hs : 0 < (sortQ l).length := by rw [length_sortQ]; exact hlen
  rw [medianQ]
  cases hsq : sortQ l with
  | nil => rw [hsq] at hs; simp at hs
  | cons a t =>
    by_cases hodd : l.length % 2 = 1
    · have hlt : l.length / 2 < (a :: t).length := by
        rw [← hsq, length_sortQ]
        exact Nat.div_lt_self hlen (by norm_num)
      have hget := List.getElem?_eq_getElem hlt
      exact ⟨(a :: t)[l.length / 2], by simp [hodd, hget]⟩
    · have hlt₂ : l.length / 2 < (a :: t).length := by
        rw [← hsq, length_sortQ]
        exact Nat.div_lt_self hlen (by norm_num)
      have hlt₁ : l.length / 2 - 1 < (a :: t).length :=
        lt_of_le_of_lt (Nat.sub_le _ _) hlt₂
      have hget₁ := List.getElem?_eq_getElem hlt₁
      have hget₂ := List.getElem?_eq_getElem hlt₂
      refine ⟨((a :: t)[l.length / 2 - 1] + (a :: t)[l.length / 2]) / 2, ?_⟩
      simp [hodd, hget₁, hget₂]

theorem nonNullVals_ne_nil {cs : List Cell} {c : Cell}
    (hc : c ∈ cs) (hs : c.isSome = true) : nonNullVals cs ≠ [] := by
  cases c with
  | none => simp at hs
  | some v =>
    have : v ∈ nonNullVals cs := by
      rw [nonNullVals, List.mem_filterMap]
      exact ⟨some v, hc, rfl⟩
    intro hnil
    rw [hnil] at this
    simp at this

theorem modeVal_foldl_isSome (f : Option Val → Val → Option Val)
    (hf : ∀ b v, (f (some b) v).isSome = true) :
    ∀ (l : List Val) (v : Val), (l.foldl f (some v)).isSome = true := by
  intro l
  induction l with
  | nil => intro v; rfl
  | cons x xs ih =>
    intro v
    rw [List.foldl_cons]
    cases hfx : f (some v) x with
    | none => have := hf v x; rw [hfx] at this; simp at this
    | some w => exact ih w

theorem modeVal_isSome {cs : List Cell} {c : Cell}
    (hc : c ∈ cs) (hs : c.isSome = true) : ∃ v, modeVal cs = some v := by
  have hne := nonNullVals_ne_nil hc hs
  rw [modeVal]
  rcases hL : nonNullVals cs with _ | ⟨x, xs⟩
  · exact absurd hL hne
  · apply Option.isSome_iff_exists.mp
    rw [List.foldl_cons]
    show (xs.foldl
        (fun best v =>
          match best with
          | none => some v
          | some b =>
            if (x :: xs).count b < (x :: xs).count v then some v
            else some b)
        (some x)).isSome = true
    apply modeVal_foldl_isSome
    intro b v
    by_cases h : (x :: xs).count b < (x :: xs).count v <;> simp [h]

theorem numVals_ne_nil {cs : List Cell} {c : Cell}
    (hc : c ∈ cs) (hs : c.isSome = true) (hstr : hasStrVal cs = false) :
    numVals cs ≠ [] := by
  cases c with
  | none => simp at hs
  | some v =>
    cases v with
    | num q =>
      have : q ∈ numVals cs := by
        rw [numVals, List.mem_filterMap]
        exact ⟨some (Val.num q), hc, rfl⟩
      intro hnil
      rw [hnil] at this
      simp at this
    | str s =>
      exfalso
      rw [hasStrVal] at hstr
      have : cs.any (fun c =>
          match c with
          | some (Val.str _) => true
          | _ => false) = true := by
        rw [List.any_eq_true]
        exact ⟨some (Val.str s), hc, rfl⟩
      rw [this] at hstr
      simp at hstr

theorem nonNullVals_eq_nil_of_all_none {cs : List Cell}
    (h : cs.all Option.isNone = true) : nonNullVals cs = [] := by
  rw [nonNullVals, List.filterMap_eq_nil_iff]
  intro c hc
  have := (List.all_eq_true.mp h) c hc
  cases c with
  | none => rfl
  | some v => simp at this

theorem modeVal_eq_none_of_all_none {cs : List Cell}
    (h : cs.all Option.isNone = true) : modeVal cs = none := by
  rw [modeVal, nonNullVals_eq_nil_of_all_none h]
  rfl

/-! ### Lemmas about column selection and rewriting -/

theorem getCol_cons (a : Column) (rest : Dataset) (m : String) :
    getCol (a :: rest) m = if a.name = m then some a else getCol rest m := by
  rw [getCol, List.find?_cons]
  by_cases h : a.name = m <;> simp [h, getCol]

theorem getCol_name {df : Dataset} {n : String} {c : Column}
    (h : getCol df n = some c) : c.name = n := by
  have := List.find?_some h
  simpa using this

theorem getCol_mem {df : Dataset} {n : String} {c : Column}
    (h : getCol df n = some c) : c ∈ df :=
  List.mem_of_find?_eq_some h

theorem updateCells_cons (a : Column) (rest : Dataset) (n : String)
    (f : List Cell → List Cell) :
    updateCells (a :: rest) n f =
      (if a.name = n then ⟨a.name, f a.cells⟩ else a) :: updateCells rest n f := by
  simp [updateCells]

theorem updateCells_names (df : Dataset) (n : String) (f : List Cell → List Cell) :
    (updateCells df n f).map Column.name = df.map Column.name := by
  induction df with
  | nil => rfl
  | cons a rest ih =>
    rw [updateCells_cons, List.map_cons, List.map_cons, ih]
    by_cases h : a.name = n <;> simp [h]

theorem updateCells_lengths (df : Dataset) (n : String) (f : List Cell → List Cell)
    (hf : ∀ cs : List Cell, (f cs).length = cs.length) :
    (updateCells df n f).map (fun c => c.cells.length)
      = df.map (fun c => c.cells.length) := by
  induction df with
  | nil => rfl
  | cons a rest ih =>
    rw [updateCells_cons, List.map_cons, List.map_cons, ih]
    by_cases h : a.name = n <;> simp [h, hf]

theorem getCol_updateCells_ne {df : Dataset} {n m : String} (f : List Cell → List Cell)
    (hne : m ≠ n) : getCol (updateCells df n f) m = getCol df m := by
  induction df with
  | nil => rfl
  | cons a rest ih =>
    rw [updateCells_cons, getCol_cons, getCol_cons]
    by_cases han : a.name = n
    · have ham : ¬ a.name = m := by rw [han]; exact Ne.symm hne
      rw [if_pos han]
      simp [ham, ih]
    · rw [if_neg han]
      by_cases ham : a.name = m <;> simp [ham, ih]

theorem getCol_updateCells_self {df : Dataset} {n : String} {c : Column}
    (f : List Cell → List Cell) (h : getCol df n = some c) :
    getCol (updateCells df n f) n = some ⟨c.name, f c.cells⟩ := by
  induction df with
  | nil => simp [getCol] at h
  | cons a rest ih =>
    rw [getCol_cons] at h
    rw [updateCells_cons, getCol_cons]
    by_cases ha : a.name = n
    · rw [if_pos ha] at h
      cases h
      simp [ha]
    · rw [if_neg ha] at h
      by_cases ha' : (if a.name = n then (⟨a.name, f a.cells⟩ : Column) else a).name = n
      · rw [if_neg ha] at ha'
        exact absurd ha' ha
      · rw [if_neg ha']
        exact ih h

theorem getCol_mapCells (df : Dataset) (m : String) (g : List Cell → List Cell) :
    getCol (df.map (fun c => ⟨c.name, g c.cells⟩)) m
      = (getCol df m).map (fun c => (⟨c.name, g c.cells⟩ : Column)) := by
  induction df with
  | nil => rfl
  | cons a rest ih =>
    rw [List.map_cons, getCol_cons, getCol_cons]
    by_cases h : a.name = m <;> simp [h, ih]

theorem dropnaSubset_eq {df : Dataset} {n : String} {target : Column}
    (h : getCol df n = some target) :
    dropnaSubset df n
      = df.map (fun c => ⟨c.name, applyMask (target.cells.map Option.isSome) c.cells⟩) := by
  rw [dropnaSubset, h]

theorem lookup_mem : ∀ {l : List (String × String)} {k v : String},
    l.lookup k = some v → (k, v) ∈ l := by
  intro l
  induction l with
  | nil => intro k v h; simp [List.lookup] at h
  | cons p rest ih =>
    intro k v h
    rcases p with ⟨a, b⟩
    rw [List.lookup] at h
    cases hbeq : k == a with
    | true =>
      rw [hbeq] at h
      cases h
      have : k = a := eq_of_beq hbeq
      rw [this]
      exact List.mem_cons_self _ _
    | false =>
      rw [hbeq] at h
      exact List.mem_cons_of_mem _ (ih h)

/-! ### Case analysis of the strategy dispatch -/

theorem length_interpCells (method : String) (cs : List Cell) :
    (interpCells method cs).length = cs.length := by
  rw [interpCells]
  split
  · simp [List.enum_length]
  · rfl

theorem dispatch_ok_cases {s n : String} {df d : Dataset}
    (h : dispatch s n df = Except.ok d) :
    d = df ∨
    (∃ f, (∀ cs : List Cell, (f cs).length = cs.length) ∧
      (∀ (cs : List Cell) (j : ℕ) (v : Val),
        cs.getD j none = some v → (f cs).getD j none = some v) ∧
      d = updateCells df n f) ∨
    (s = "remove" ∧
      ∃ mask : List Bool, d = df.map (fun c => ⟨c.name, applyMask mask c.cells⟩)) := by
  simp only [dispatch] at h
  split at h
  · -- mean
    split at h
    · exact absurd h (by simp)
    · split at h
      · cases h
        exact Or.inr (Or.inl ⟨_, length_fillna _, fillna_preserves_some _, rfl⟩)
      · cases h
        exact Or.inl rfl
  · split at h
    · -- median
      split at h
      · exact absurd h (by simp)
      · split at h
        · cases h
          exact Or.inr (Or.inl ⟨_, length_fillna _, fillna_preserves_some _, rfl⟩)
        · cases h
          exact Or.inl rfl
    · split at h
      · -- mode
        split at h
        · cases h
          exact Or.inr (Or.inl ⟨_, length_fillna _, fillna_preserves_some _, rfl⟩)
        · exact absurd h (by simp)
      · split at h
        · -- zero
          cases h
          exact Or.inr (Or.inl ⟨_, length_fillna _, fillna_preserves_some _, rfl⟩)
        · split at h
          · -- remove
            cases h
            rw [dropnaSubset]
            cases hg : getCol df n with
            | none => exact Or.inl rfl
            | some target =>
              refine Or.inr (Or.inr ⟨by assumption, target.cells.map Option.isSome, rfl⟩)
          · split at h
            · -- ffill
              cases h
              exact Or.inr (Or.inl ⟨_, length_ffill,
                fun cs j v hv => ffill_preserves_some hv, rfl⟩)
            · split at h
              · -- bfill
                cases h
                exact Or.inr (Or.inl ⟨_, length_bfill,
                  fun cs j v hv => bfill_preserves_some hv, rfl⟩)
              · split at h
                · -- interpolation methods
                  split at h
                  · cases h
                    exact Or.inr (Or.inl ⟨_, length_interpCells s,
                      interpCells_preserves_some s, rfl⟩)
                  · exact absurd h (by simp)
                · exact absurd h (by simp)

/-! ### Case analysis of one loop iteration and of the loop -/

theorem processColumn_ok_cases {config : Config} {df d : Dataset} {n : String}
    (h : processColumn config df n = Except.ok d) :
    d = df ∨
    (∃ raw f, config.sections.lookup (pyStrip n) = some raw ∧
      (∀ cs : List Cell, (f cs).length = cs.length) ∧
      (∀ (cs : List Cell) (j : ℕ) (v : Val),
        cs.getD j none = some v → (f cs).getD j none = some v) ∧
      d = updateCells df n f) ∨
    (∃ raw, config.sections.lookup (pyStrip n) = some raw ∧ pyLower raw = "remove" ∧
      ∃ mask : List Bool, d = df.map (fun c => ⟨c.name, applyMask mask c.cells⟩)) := by
  rw [processColumn] at h
  cases hl : config.sections.lookup (pyStrip n) with
  | none =>
    rw [hl] at h
    cases h
    exact Or.inl rfl
  | some raw =>
    rw [hl] at h
    rcases dispatch_ok_cases h with h1 | ⟨f, hf, hpres, h2⟩ | ⟨hrem, mask, h3⟩
    · exact Or.inl h1
    · exact Or.inr (Or.inl ⟨raw, f, rfl, hf, hpres, h2⟩)
    · exact Or.inr (Or.inr ⟨raw, rfl, hrem, mask, h3⟩)

theorem processColumn_ok_names {config : Config} {df d : Dataset} {n : String}
    (h : processColumn config df n = Except.ok d) :
    d.map Column.name = df.map Column.name := by
  rcases processColumn_ok_cases h with h1 | ⟨raw, f, _, _, _, h2⟩ | ⟨raw, _, _, mask, h3⟩
  · rw [h1]
  · rw [h2, updateCells_names]
  · rw [h3, List.map_map]
    rfl

theorem processColumn_ok_shape {config : Config} {df d : Dataset} {n : String}
    (hnr : ∀ p ∈ config.sections, pyLower p.2 ≠ "remove")
    (h : processColumn config df n = Except.ok d) :
    d.map Column.name = df.map Column.name ∧
      d.map (fun c => c.cells.length) = df.map (fun c => c.cells.length) := by
  refine ⟨processColumn_ok_names h, ?_⟩
  rcases processColumn_ok_cases h with h1 | ⟨raw, f, _, hf, _, h2⟩ | ⟨raw, hl, hrem, mask, h3⟩
  · rw [h1]
  · rw [h2, updateCells_lengths df n f hf]
  · exact absurd hrem (hnr _ (lookup_mem hl))

theorem processColumn_preserves_col {config : Config} {df d : Dataset} {n m : String}
    {c : Column} (h : processColumn config df n = Except.ok d) (hne : m ≠ n)
    (hc : getCol df m = some c) (hnn : noNulls c.cells = true) :
    ∃ c', getCol d m = some c' ∧ c'.name = c.name ∧ noNulls c'.cells = true := by
  rcases processColumn_ok_cases h with h1 | ⟨raw, f, _, _, _, h2⟩ | ⟨raw, _, _, mask, h3⟩
  · exact ⟨c, h1 ▸ hc, rfl, hnn⟩
  · refine ⟨c, ?_, rfl, hnn⟩
    rw [h2, getCol_updateCells_ne f hne, hc]
  · refine ⟨⟨c.name, applyMask mask c.cells⟩, ?_, rfl, noNulls_applyMask hnn⟩
    rw [h3, getCol_mapCells, hc]
    rfl

theorem processColumn_unconfigured {config : Config} {df d : Dataset} {n m : String}
    (hnr : ∀ p ∈ config.sections, pyLower p.2 ≠ "remove")
    (hm : config.sections.lookup (pyStrip m) = none)
    (h : processColumn config df n = Except.ok d) :
    getCol d m = getCol df m := by
  rcases processColumn_ok_cases h with h1 | ⟨raw, f, hl, _, _, h2⟩ | ⟨raw, hl, hrem, mask, h3⟩
  · rw [h1]
  · have hne : m ≠ n := by
      intro hmn
      rw [hmn, hl] at hm
      exact Option.noConfusion hm
    rw [h2, getCol_updateCells_ne f hne]
  · exact absurd hrem (hnr _ (lookup_mem hl))

theorem runColumns_append (config : Config) (l₁ l₂ : List String) :
    ∀ df : Dataset, runColumns config (l₁ ++ l₂) df =
      (match runColumns config l₁ df with
        | Except.ok d => runColumns config l₂ d
        | Except.error e => Except.error e) := by
  induction l₁ with
  | nil => intro df; rfl
  | cons n rest ih =>
    intro df
    rw [List.cons_append, runColumns, runColumns]
    cases processColumn config df n with
    | error msg => rfl
    | ok df2 => exact ih df2

theorem runColumns_shape (config : Config)
    (hnr : ∀ p ∈ config.sections, pyLower p.2 ≠ "remove") :
    ∀ (names : List String) (df d : Dataset),
      runColumns config names df = Except.ok d →
      d.map Column.name = df.map Column.name ∧
        d.map (fun c => c.cells.length) = df.map (fun c => c.cells.length) := by
  intro names
  induction names with
  | nil =>
    intro df d h
    cases h
    exact ⟨rfl, rfl⟩
  | cons n rest ih =>
    intro df d h
    rw [runColumns] at h
    cases hp : processColumn config df n with
    | error msg => rw [hp] at h; exact absurd h (by simp)
    | ok df2 =>
      rw [hp] at h
      obtain ⟨hn1, hl1⟩ := processColumn_ok_shape hnr hp
      obtain ⟨hn2, hl2⟩ := ih df2 d h
      exact ⟨hn2.trans hn1, hl2.trans hl1⟩

theorem runColumns_preserves_col (config : Config) :
    ∀ (names : List String) (df d : Dataset) (m : String) (c : Column),
      runColumns config names df = Except.ok d → m ∉ names →
      getCol df m = some c → noNulls c.cells = true →
      ∃ c', getCol d m = some c' ∧ noNulls c'.cells = true := by
  intro names
  induction names with
  | nil =>
    intro df d m c h _ hc hnn
    cases h
    exact ⟨c, hc, hnn⟩
  | cons n rest ih =>
    intro df d m c h hm hc hnn
    rw [runColumns] at h
    cases hp : processColumn config df n with
    | error msg => rw [hp] at h; exact absurd h (by simp)
    | ok df2 =>
      rw [hp] at h
      have hne : m ≠ n := fun he => hm (he ▸ List.mem_cons_self n rest)
      obtain ⟨c', hc', _, hnn'⟩ := processColumn_preserves_col hp hne hc hnn
      exact ih df2 d m c' h (fun hmem => hm (List.mem_cons_of_mem n hmem)) hc' hnn'

theorem processColumn_row_order {config : Config} {df d : Dataset} {n : String}
    (hnr : ∀ p ∈ config.sections, pyLower p.2 ≠ "remove")
    (h : processColumn config df n = Except.ok d) :
    ∀ (i : ℕ) (c c' : Column), df.get? i = some c → d.get? i = some c' →
      ∀ (j : ℕ) (v : Val), c.cells.getD j none = some v →
        c'.cells.getD j none = some v := by
  intro i c c' hc hc' j v hv
  rcases processColumn_ok_cases h with h1 | ⟨raw, f, hl, _, hpres, h2⟩
    | ⟨raw, hl, hrem, mask, h3⟩
  · rw [h1, hc] at hc'
    cases hc'
    exact hv
  · rw [List.get?_eq_getElem?] at hc hc'
    rw [h2, updateCells, List.getElem?_map, hc] at hc'
    by_cases hn : c.name = n
    · rw [Option.map_some'] at hc'
      rw [if_pos hn] at hc'
      cases hc'
      exact hpres c.cells j v hv
    · rw [Option.map_some'] at hc'
      rw [if_neg hn] at hc'
      cases hc'
      exact hv
  · exact absurd hrem (hnr _ (lookup_mem hl))

theorem runColumns_row_order (config : Config)
    (hnr : ∀ p ∈ config.sections, pyLower p.2 ≠ "remove") :
    ∀ (names : List String) (df d : Dataset),
      runColumns config names df = Except.ok d →
      ∀ (i : ℕ) (c c' : Column), df.get? i = some c → d.get? i = some c' →
        ∀ (j : ℕ) (v : Val), c.cells.getD j none = some v →
          c'.cells.getD j none = some v := by
  intro names
  induction names with
  | nil =>
    intro df d h i c c' hc hc' j v hv
    cases h
    rw [hc] at hc'
    cases hc'
    exact hv
  | cons n rest ih =>
    intro df d h i c c' hc hc' j v hv
    rw [runColumns] at h
    cases hp : processColumn config df n with
    | error msg => rw [hp] at h; exact absurd h (by simp)
    | ok df2 =>
      rw [hp] at h
      have hlen : df2.length = df.length := by
        have := processColumn_ok_names hp
        have h1 : (df2.map Column.name).length = (df.map Column.name).length := by
          rw [this]
        simpa using h1
      have hi : i < df2.length := by
        rw [hlen]
        exact (List.get?_eq_some.mp hc).1
      have hc2 : df2.get? i = some (df2.get ⟨i, hi⟩) := List.get?_eq_get hi
      exact ih df2 d h i (df2.get ⟨i, hi⟩) c' hc2 hc' j v
        (processColumn_row_order hnr hp i c (df2.get ⟨i, hi⟩) hc hc2 j v hv)

theorem dispatch_invalid {s : String} (n : String) (df : Dataset)
    (hs : s ∉ strategySet) :
    dispatch s n df = Except.error ("invalid strategy (" ++ s ++ ")") := by
  simp only [strategySet, List.mem_cons, List.not_mem_nil, or_false, not_or] at hs
  obtain ⟨h1, h2, h3, h4, h5, h6, h7, h8, h9, h10, h11, h12⟩ := hs
  simp only [dispatch, if_neg h1, if_neg h2, if_neg h3, if_neg h4, if_neg h5,
    if_neg h6, if_neg h7]
  rw [if_neg]
  intro hor
  rcases hor with h | h | h | h | h
  · exact h8 h
  · exact h9 h
  · exact h10 h
  · exact h11 h
  · exact h12 h

theorem dispatch_fill {s n : String} {df d : Dataset} {c : Column}
    (hs : s = "mean" ∨ s = "median" ∨ s = "mode" ∨ s = "zero")
    (h : dispatch s n df = Except.ok d)
    (hc : getCol df n = some c)
    (hnn : c.cells.any Option.isSome = true) :
    ∃ c', getCol d n = some c' ∧ noNulls c'.cells = true := by
  obtain ⟨cell, hcm, hcs⟩ := List.any_eq_true.mp hnn
  rcases hs with hs | hs | hs | hs <;> subst hs
  · -- mean
    simp only [dispatch, hc, Option.map_some', Option.getD_some,
      eq_self_iff_true, if_true] at h
    cases hstr : hasStrVal c.cells with
    | true => rw [if_pos hstr] at h; exact absurd h (by simp)
    | false =>
      rw [if_neg (by rw [hstr]; exact Bool.false_ne_true)] at h
      obtain ⟨q, hq⟩ := meanQ_isSome (numVals_ne_nil hcm hcs hstr)
      rw [hq] at h
      cases h
      exact ⟨⟨c.name, fillna (Val.num q) c.cells⟩,
        getCol_updateCells_self _ hc, noNulls_fillna _ _⟩
  · -- median
    simp only [dispatch, hc, Option.map_some', Option.getD_some,
      eq_self_iff_true, if_true] at h
    rw [if_neg (by decide : ¬ ("median" : String) = "mean")] at h
    cases hstr : hasStrVal c.cells with
    | true => rw [if_pos hstr] at h; exact absurd h (by simp)
    | false =>
      rw [if_neg (by rw [hstr]; exact Bool.false_ne_true)] at h
      obtain ⟨q, hq⟩ := medianQ_isSome (numVals_ne_nil hcm hcs hstr)
      rw [hq] at h
      cases h
      exact ⟨⟨c.name, fillna (Val.num q) c.cells⟩,
        getCol_updateCells_self _ hc, noNulls_fillna _ _⟩
  · -- mode
    simp only [dispatch, hc, Option.map_some', Option.getD_some,
      eq_self_iff_true, if_true] at h
    rw [if_neg (by decide : ¬ ("mode" : String) = "mean"),
      if_neg (by decide : ¬ ("mode" : String) = "median")] at h
    obtain ⟨v, hv⟩ := modeVal_isSome hcm hcs
    rw [hv] at h
    cases h
    exact ⟨⟨c.name, fillna v c.cells⟩,
      getCol_updateCells_self _ hc, noNulls_fillna _ _⟩
  · -- zero
    simp only [dispatch, hc, Option.map_some', Option.getD_some,
      eq_self_iff_true, if_true] at h
    rw [if_neg (by decide : ¬ ("zero" : String) = "mean"),
      if_neg (by decide : ¬ ("zero" : String) = "median"),
      if_neg (by decide : ¬ ("zero" : String) = "mode")] at h
    cases h
    exact ⟨⟨c.name, fillna (Val.num 0) c.cells⟩,
      getCol_updateCells_self _ hc, noNulls_fillna _ _⟩

theorem runColumns_poisoned (config : Config) :
    ∀ (names : List String) (df : Dataset) (col raw : String),
      col ∈ names →
      config.sections.lookup (pyStrip col) = some raw →
      pyLower raw ∉ strategySet →
      ∃ e, runColumns config names df = Except.error e := by
  intro names
  induction names with
  | nil => intro df col raw h _ _; simp at h
  | cons n rest ih =>
    intro df col raw hmem hl hs
    rw [runColumns]
    cases hp : processColumn config df n with
    | error msg => exact ⟨⟨n, msg⟩, rfl⟩
    | ok df2 =>
      rcases List.mem_cons.mp hmem with he | ht
      · subst he
        have hinv : processColumn config df col
            = Except.error ("invalid strategy (" ++ pyLower raw ++ ")") := by
          rw [processColumn, hl]
          exact dispatch_invalid _ _ hs
        rw [hinv] at hp
        exact absurd hp (by simp)
      · exact ih df2 col raw ht hl hs

theorem runColumns_unconfigured (config : Config)
    (hnr : ∀ p ∈ config.sections, pyLower p.2 ≠ "remove") :
    ∀ (names : List String) (df d : Dataset) (m : String),
      config.sections.lookup (pyStrip m) = none →
      runColumns config names df = Except.ok d →
      getCol d m = getCol df m := by
  intro names
  induction names with
  | nil =>
    intro df d m _ h
    cases h
    rfl
  | cons n rest ih =>
    intro df d m hm h
    rw [runColumns] at h
    cases hp : processColumn config df n with
    | error msg => rw [hp] at h; exact absurd h (by simp)
    | ok df2 =>
      rw [hp] at h
      exact (ih df2 d m hm h).trans (processColumn_unconfigured hnr hm hp)

/-! ### Auxiliary facts for the detector -/

theorem any_or_merge (p q : Cell → Bool) : ∀ cs : List Cell,
    (cs.any p || cs.any q) = cs.any (fun c => p c || q c) := by
  intro cs
  induction cs with
  | nil => rfl
  | cons c rest ih =>
    simp only [List.any_cons]
    rw [← ih]
    cases p c <;> cases q c <;> cases rest.any p <;> cases rest.any q <;> rfl

theorem isMissingValue_eq (c : Cell) :
    (c.isNone || decide (c = some (Val.str ""))) = isMissingValue c := by
  cases c with
  | none => rfl
  | some v =>
    cases v with
    | num q => simp [isMissingValue]
    | str s => simp [isMissingValue]

theorem find_foldl (df : Dataset) : ∀ acc : List String,
    df.foldl
      (fun acc col =>
        if col.cells.any (fun c => c.isNone)
            || col.cells.any (fun c => c = some (Val.str "")) then
          acc ++ [col.name]
        else acc)
      acc
    = acc ++ (df.filter (fun col => col.cells.any isMissingValue)).map Column.name := by
  induction df with
  | nil => intro acc; simp
  | cons col rest ih =>
    intro acc
    rw [List.foldl_cons, ih]
    have he : (col.cells.any (fun c => c.isNone)
        || col.cells.any (fun c => decide (c = some (Val.str ""))))
        = col.cells.any isMissingValue := by
      rw [any_or_merge]
      congr 1
      funext c
      exact isMissingValue_eq c
    simp only [he, List.filter_cons]
    cases h : col.cells.any isMissingValue with
    | true => simp
    | false => simp

/-! ### The claims -/

/-- Claim C9: `find_columns_with_missing_data` returns exactly the names of
the columns holding at least one missing value (null marker, or empty text
value), in the dataset's own column order.  The function is pure, so the
dataset is not modified. -/
theorem claim9_detector (df : Dataset) :
    find_columns_with_missing_data df
      = (df.filter (fun col => col.cells.any isMissingValue)).map Column.name := by
  rw [find_columns_with_missing_data, find_foldl df []]
  rfl

/-- Claim C6: `ffill` and `bfill`, alone or composed in any order, never
change a cell that already holds a value, and each of the two is idempotent. -/
theorem claim6_fill_algebra (cs : List Cell) (i : ℕ) (v : Val)
    (h : cs.getD i none = some v) :
    (ffill cs).getD i none = some v ∧ (bfill cs).getD i none = some v ∧
    (ffill (bfill cs)).getD i none = some v ∧
    (bfill (ffill cs)).getD i none = some v ∧
    ffill (ffill cs) = ffill cs ∧ bfill (bfill cs) = bfill cs :=
  ⟨ffill_preserves_some h, bfill_preserves_some h,
   ffill_preserves_some (bfill_preserves_some h),
   bfill_preserves_some (ffill_preserves_some h),
   ffill_idem cs, bfill_idem cs⟩

/-- Witness for C6 at the concrete column `[1, null]`, index 0. -/
theorem claim6_fill_algebra_witness :
    ([some (Val.num 1), none] : List Cell).getD 0 none = some (Val.num 1) ∧
    ((ffill [some (Val.num 1), none]).getD 0 none = some (Val.num 1) ∧
      (bfill [some (Val.num 1), none]).getD 0 none = some (Val.num 1) ∧
      (ffill (bfill [some (Val.num 1), none])).getD 0 none = some (Val.num 1) ∧
      (bfill (ffill [some (Val.num 1), none])).getD 0 none = some (Val.num 1) ∧
      ffill (ffill [some (Val.num 1), none]) = ffill [some (Val.num 1), none] ∧
      bfill (bfill [some (Val.num 1), none]) = bfill [some (Val.num 1), none]) :=
  ⟨rfl, claim6_fill_algebra [some (Val.num 1), none] 0 (Val.num 1) rfl⟩

/-- Claim C4: when no configured strategy is `remove`, a successful
`input_missing_data` run preserves the column names, every column's cell
count, and hence the row count; and row order is preserved: every cell that
held a value keeps exactly that value at the same row position in the same
column (only null cells are rewritten), so rows are neither dropped nor
permuted. -/
theorem claim4_row_count (df d : Dataset) (config : Config)
    (hnr : ∀ p ∈ config.sections, pyLower p.2 ≠ "remove")
    (hres : input_missing_data df config = some d) :
    d.map Column.name = df.map Column.name ∧
    d.map (fun c => c.cells.length) = df.map (fun c => c.cells.length) ∧
    numRows d = numRows df ∧
    (∀ (i : ℕ) (c c' : Column), df.get? i = some c → d.get? i = some c' →
      ∀ (j : ℕ) (v : Val), c.cells.getD j none = some v →
        c'.cells.getD j none = some v) := by
  rw [input_missing_data] at hres
  cases hrun : runColumns config (df.map Column.name) df with
  | error e => rw [hrun] at hres; exact absurd hres (by simp)
  | ok dall =>
    rw [hrun] at hres
    cases hres
    obtain ⟨hn, hl⟩ := runColumns_shape config hnr (df.map Column.name) df d hrun
    refine ⟨hn, hl, ?_, runColumns_row_order config hnr (df.map Column.name) df d hrun⟩
    rw [numRows, numRows]
    have hh : d.head?.map (fun c => c.cells.length)
        = df.head?.map (fun c => c.cells.length) := by
      rw [← List.head?_map, ← List.head?_map, hl]
    rw [hh]

/-- Witness for C4: zero-filling one column of a 2-row frame keeps 2 rows, and
the value 1 held at row 0 is still the value at row 0 of that column. -/
theorem claim4_row_count_witness :
    (∀ p ∈ (⟨[("A", "zero")]⟩ : Config).sections, pyLower p.2 ≠ "remove") ∧
    input_missing_data [⟨"A", [some (Val.num 1), none]⟩] ⟨[("A", "zero")]⟩
      = some [⟨"A", [some (Val.num 1), some (Val.num 0)]⟩] ∧
    numRows [⟨"A", [some (Val.num 1), some (Val.num 0)]⟩]
      = numRows [⟨"A", [some (Val.num 1), none]⟩] ∧
    (⟨"A", [some (Val.num 1), some (Val.num 0)]⟩ : Column).cells.getD 0 none
      = some (Val.num 1) :=
  ⟨by decide, by with_unfolding_all rfl,
   (claim4_row_count [⟨"A", [some (Val.num 1), none]⟩]
      [⟨"A", [some (Val.num 1), some (Val.num 0)]⟩] ⟨[("A", "zero")]⟩
      (by decide) (by with_unfolding_all rfl)).2.2.1,
   (claim4_row_count [⟨"A", [some (Val.num 1), none]⟩]
      [⟨"A", [some (Val.num 1), some (Val.num 0)]⟩] ⟨[("A", "zero")]⟩
      (by decide) (by with_unfolding_all rfl)).2.2.2 0
      ⟨"A", [some (Val.num 1), none]⟩
      ⟨"A", [some (Val.num 1), some (Val.num 0)]⟩ rfl rfl 0 (Val.num 1) rfl⟩

/-- Claim C8 (code evaluated at the failing input): for a configuration path
that cannot be opened, `read_config` does not fail — `ConfigParser.read`
silently skips the unreadable path — and the whole run then proceeds with the
empty configuration, writing the input unchanged, missing values included. -/
theorem claim8_read_config_absent :
    read_config ConfigSource.absent = Except.ok emptyConfig ∧
    (read_config ConfigSource.absent).map (fun c => runEtl [⟨"A", [none]⟩] c)
      = Except.ok ⟨some [⟨"A", [none]⟩], []⟩ :=
  ⟨rfl, rfl⟩

/-- Claim C1 as stated is false: the script lower-cases the identifier before
dispatching, so the error names the lower-cased form, not the exact identifier
from the configuration.  With `strategy = Bogus` for column A the run fails
and no log line (and no other output) contains the text `Bogus`. -/
theorem claim1_counterexample :
    runEtl [⟨"A", [some (Val.num 1)]⟩] ⟨[("A", "Bogus")]⟩
      = ⟨none, ["inputting missing data for A: invalid strategy (bogus)",
          "Data Cleaning process failed"]⟩ ∧
    containsSub "inputting missing data for A: invalid strategy (bogus)" "Bogus" = false ∧
    containsSub "Data Cleaning process failed" "Bogus" = false :=
  ⟨by with_unfolding_all rfl, by decide, by decide⟩

/-- Claim C1, amended: whenever some column's configured strategy identifier
is (after lower-casing) outside the fixed set, the run produces no output
file; and when that column is reached with every earlier column processed
successfully, the logged error names that exact column together with the
lower-cased identifier. -/
theorem claim1_amended :
    (∀ (df df' : Dataset) (config : Config) (pre post : List String) (col raw : String),
      (stripColumns df).map Column.name = pre ++ col :: post →
      runColumns config pre (stripColumns df) = Except.ok df' →
      config.sections.lookup (pyStrip col) = some raw →
      pyLower raw ∉ strategySet →
      runEtl df config =
        ⟨none, [etlErrorLine ⟨col, "invalid strategy (" ++ pyLower raw ++ ")"⟩,
          "Data Cleaning process failed"]⟩) ∧
    (∀ (df : Dataset) (config : Config) (col raw : String),
      col ∈ (stripColumns df).map Column.name →
      config.sections.lookup (pyStrip col) = some raw →
      pyLower raw ∉ strategySet →
      (runEtl df config).outputFile = none) := by
  constructor
  · intro df df' config pre post col raw hnames hpre hl hs
    have herr : runColumns config (col :: post) df'
        = Except.error ⟨col, "invalid strategy (" ++ pyLower raw ++ ")"⟩ := by
      rw [runColumns]
      have hp : processColumn config df' col
          = Except.error ("invalid strategy (" ++ pyLower raw ++ ")") := by
        rw [processColumn, hl]
        exact dispatch_invalid _ _ hs
      rw [hp]
    have hrun : runColumns config ((stripColumns df).map Column.name) (stripColumns df)
        = Except.error ⟨col, "invalid strategy (" ++ pyLower raw ++ ")"⟩ := by
      rw [hnames, runColumns_append, hpre]
      exact herr
    simp only [runEtl]
    rw [hrun]
  · intro df config col raw hmem hl hs
    obtain ⟨e, he⟩ := runColumns_poisoned config ((stripColumns df).map Column.name)
      (stripColumns df) col raw hmem hl hs
    simp only [runEtl]
    rw [he]

/-- Witness for the amended C1, at the configuration `A: strategy = Bogus`. -/
theorem claim1_amended_witness :
    pyLower "Bogus" ∉ strategySet ∧
    runEtl [⟨"A", [some (Val.num 1)]⟩] ⟨[("A", "Bogus")]⟩
      = ⟨none, ["inputting missing data for A: invalid strategy (bogus)",
          "Data Cleaning process failed"]⟩ :=
  ⟨by decide,
   claim1_amended.1 [⟨"A", [some (Val.num 1)]⟩] [⟨"A", [some (Val.num 1)]⟩]
     ⟨[("A", "Bogus")]⟩ [] [] "A" "Bogus" rfl rfl rfl (by decide)⟩

/-- Claim C2 as stated is false on the code: the fill strategies act on null
markers only, and earlier `remove` strategies can change what a later column
sees.  In this frame, B is configured `mean` and originally holds the value 5,
yet the output still has a null in B (the remove on A dropped B's only value
first, making the mean NaN and the fill a no-op), and C is configured `zero`
and originally holds the text value `x`, yet the output still has the missing
empty text value in C (fillna touches no non-null cell). -/
theorem claim2_counterexample :
    input_missing_data
        [⟨"A", [some (Val.num 1), none]⟩, ⟨"B", [none, some (Val.num 5)]⟩,
         ⟨"C", [some (Val.str ""), some (Val.str "x")]⟩]
        ⟨[("A", "remove"), ("B", "mean"), ("C", "zero")]⟩
      = some [⟨"A", [some (Val.num 1)]⟩, ⟨"B", [none]⟩, ⟨"C", [some (Val.str "")]⟩] ∧
    isMissingValue none = true ∧
    isMissingValue (some (Val.str "")) = true ∧
    isMissingValue (some (Val.num 5)) = false ∧
    isMissingValue (some (Val.str "x")) = false :=
  ⟨by with_unfolding_all rfl, rfl, rfl, rfl, rfl⟩

/-- Claim C2, amended: a column configured `mean`, `median`, `mode` or `zero`
that still holds at least one non-null value when its strategy is applied
contains no null markers in a successfully returned dataset (empty text
values are not nulls and may remain). -/
theorem claim2_amended
    (df df' d : Dataset) (config : Config) (pre post : List String)
    (col raw : String) (c : Column)
    (hnames : df.map Column.name = pre ++ col :: post)
    (hnd : (df.map Column.name).Nodup)
    (hpre : runColumns config pre df = Except.ok df')
    (hlook : config.sections.lookup (pyStrip col) = some raw)
    (hstrat : pyLower raw = "mean" ∨ pyLower raw = "median" ∨ pyLower raw = "mode"
      ∨ pyLower raw = "zero")
    (hc : getCol df' col = some c)
    (hnn : c.cells.any Option.isSome = true)
    (hres : input_missing_data df config = some d) :
    ∃ c', getCol d col = some c' ∧ noNulls c'.cells = true := by
  rw [input_missing_data] at hres
  cases hrun : runColumns config (df.map Column.name) df with
  | error e => rw [hrun] at hres; exact absurd hres (by simp)
  | ok dall =>
    rw [hrun] at hres
    cases hres
    rw [hnames, runColumns_append, hpre] at hrun
    have hrun2 : runColumns config (col :: post) df' = Except.ok d := hrun
    rw [runColumns] at hrun2
    cases hp : processColumn config df' col with
    | error msg => rw [hp] at hrun2; exact absurd hrun2 (by simp)
    | ok df2 =>
      rw [hp] at hrun2
      rw [processColumn, hlook] at hp
      have hp2 : dispatch (pyLower raw) col df' = Except.ok df2 := hp
      obtain ⟨c', hc', hnn'⟩ := dispatch_fill hstrat hp2 hc hnn
      have hout : col ∉ post := by
        rw [hnames] at hnd
        exact (List.nodup_cons.mp (List.nodup_append.mp hnd).2.1).1
      exact runColumns_preserves_col config post df2 d col c' hrun2 hout hc' hnn'

/-- Witness for the amended C2, on the spec's mean scenario `A: [1, null, 3]`. -/
theorem claim2_amended_witness :
    input_missing_data [⟨"A", [some (Val.num 1), none, some (Val.num 3)]⟩]
        ⟨[("A", "mean")]⟩
      = some [⟨"A", [some (Val.num 1), some (Val.num 2), some (Val.num 3)]⟩] ∧
    ∃ c', getCol [⟨"A", [some (Val.num 1), some (Val.num 2), some (Val.num 3)]⟩] "A"
        = some c' ∧ noNulls c'.cells = true :=
  ⟨by with_unfolding_all rfl,
   claim2_amended [⟨"A", [some (Val.num 1), none, some (Val.num 3)]⟩]
     [⟨"A", [some (Val.num 1), none, some (Val.num 3)]⟩]
     [⟨"A", [some (Val.num 1), some (Val.num 2), some (Val.num 3)]⟩]
     ⟨[("A", "mean")]⟩ [] [] "A" "mean"
     ⟨"A", [some (Val.num 1), none, some (Val.num 3)]⟩
     rfl (by decide) rfl rfl (Or.inl rfl) rfl (by decide)
     (by with_unfolding_all rfl)⟩

/-- Claim C3 as stated is false on the code: `dropna` removes rows where the
column is null, not rows where it is missing in the spec's sense.  A column
holding the missing empty text value loses no rows under `remove`. -/
theorem claim3_counterexample :
    input_missing_data [⟨"A", [some (Val.str ""), some (Val.str "x")]⟩]
        ⟨[("A", "remove")]⟩
      = some [⟨"A", [some (Val.str ""), some (Val.str "x")]⟩] ∧
    isMissingValue (some (Val.str "")) = true ∧
    numRows [⟨"A", [some (Val.str ""), some (Val.str "x")]⟩] = 2 :=
  ⟨by with_unfolding_all rfl, rfl, rfl⟩

/-- Claim C3, amended: a column configured `remove` makes the step drop, from
every column of the frame, exactly the rows at which that column is null,
keeping the remaining rows in their relative order (each new column is a
sublist of the old one, and all columns of a uniform frame keep one common
row count). -/
theorem claim3_amended (df : Dataset) (config : Config) (col raw : String)
    (target : Column)
    (hlook : config.sections.lookup (pyStrip col) = some raw)
    (hlow : pyLower raw = "remove")
    (htarget : getCol df col = some target) :
    processColumn config df col = Except.ok (dropnaSubset df col) ∧
    dropnaSubset df col
      = df.map (fun c => ⟨c.name, applyMask (target.cells.map Option.isSome) c.cells⟩) ∧
    (∀ c ∈ df, (applyMask (target.cells.map Option.isSome) c.cells).Sublist c.cells) ∧
    applyMask (target.cells.map Option.isSome) target.cells
      = target.cells.filter (fun x => x.isSome) ∧
    (∀ cs : List Cell, cs.length = target.cells.length →
      (applyMask (target.cells.map Option.isSome) cs).length
        = (target.cells.filter (fun x => x.isSome)).length) := by
  refine ⟨?_, dropnaSubset_eq htarget, fun c _ => applyMask_sublist _ _,
    applyMask_self _, ?_⟩
  · rw [processColumn, hlook]
    show dispatch (pyLower raw) col df = _
    rw [hlow]
    rfl
  · intro cs hlen
    rw [← applyMask_self]
    exact applyMask_length_congr _ cs target.cells hlen

/-- Witness for the amended C3, on the spec's scenario `A: [1, null, 3]` with
`strategy = remove`: the step is the row filter and the run returns the 2-row
frame `A: [1, 3]`. -/
theorem claim3_amended_witness :
    processColumn ⟨[("A", "remove")]⟩
        [⟨"A", [some (Val.num 1), none, some (Val.num 3)]⟩] "A"
      = Except.ok (dropnaSubset [⟨"A", [some (Val.num 1), none, some (Val.num 3)]⟩] "A") ∧
    input_missing_data [⟨"A", [some (Val.num 1), none, some (Val.num 3)]⟩]
        ⟨[("A", "remove")]⟩
      = some [⟨"A", [some (Val.num 1), some (Val.num 3)]⟩] :=
  ⟨(claim3_amended [⟨"A", [some (Val.num 1), none, some (Val.num 3)]⟩]
      ⟨[("A", "remove")]⟩ "A" "remove"
      ⟨"A", [some (Val.num 1), none, some (Val.num 3)]⟩ rfl rfl rfl).1,
   by with_unfolding_all rfl⟩

/-- Claim C5 as stated is false on the code: pandas `ffill` treats the empty
text value as a valid value, not as a missing one.  In `A: [x, "", null]` the
missing empty text entry has the non-missing `x` before it yet is not
replaced, and the null is filled with the empty text value — which is itself
missing in the spec's sense — rather than with the nearest preceding
non-missing value `x`. -/
theorem claim5_counterexample :
    input_missing_data
        [⟨"A", [some (Val.str "x"), some (Val.str ""), none]⟩] ⟨[("A", "ffill")]⟩
      = some [⟨"A", [some (Val.str "x"), some (Val.str ""), some (Val.str "")]⟩] ∧
    isMissingValue (some (Val.str "")) = true ∧
    isMissingValue (some (Val.str "x")) = false :=
  ⟨by with_unfolding_all rfl, rfl, rfl⟩

/-- Claim C5, amended: a column configured `ffill` is rewritten with `ffill`,
which keeps every non-null cell and replaces each null cell by the nearest
earlier non-null cell — a null with no earlier non-null cell stays null; and
symmetrically for `bfill` with the nearest later non-null cell. -/
theorem claim5_amended (config : Config) (df : Dataset) (col raw : String)
    (cs : List Cell) (i : ℕ)
    (hlook : config.sections.lookup (pyStrip col) = some raw)
    (hi : i < cs.length) :
    (pyLower raw = "ffill" →
      processColumn config df col = Except.ok (updateCells df col ffill)) ∧
    (pyLower raw = "bfill" →
      processColumn config df col = Except.ok (updateCells df col bfill)) ∧
    (ffill cs).length = cs.length ∧ (bfill cs).length = cs.length ∧
    (ffill cs).getD i none =
      (match cs.getD i none with
        | some v => some v
        | none => lastValid (cs.take i)) ∧
    (bfill cs).getD i none =
      (match cs.getD i none with
        | some v => some v
        | none => firstValid (cs.drop (i + 1))) := by
  refine ⟨?_, ?_, length_ffill cs, length_bfill cs, ffill_getD cs i hi,
    bfill_getD cs i hi⟩
  · intro hf
    rw [processColumn, hlook]
    show dispatch (pyLower raw) col df = _
    rw [hf]
    rfl
  · intro hb
    rw [processColumn, hlook]
    show dispatch (pyLower raw) col df = _
    rw [hb]
    rfl

/-- Witness for the amended C5, on the spec's scenario `A: [null, 2, null, 4]`
with `strategy = ffill`: position 2 is filled from position 1, the leading
null stays, and the run returns `A: [null, 2, 2, 4]`. -/
theorem claim5_amended_witness :
    processColumn ⟨[("A", "ffill")]⟩
        [⟨"A", [none, some (Val.num 2), none, some (Val.num 4)]⟩] "A"
      = Except.ok (updateCells
          [⟨"A", [none, some (Val.num 2), none, some (Val.num 4)]⟩] "A" ffill) ∧
    (ffill [none, some (Val.num 2), none, some (Val.num 4)]).getD 2 none
      = lastValid ([none, some (Val.num 2), none, some (Val.num 4)].take 2) ∧
    (ffill [none, some (Val.num 2), none, some (Val.num 4)]).getD 0 none
      = lastValid ([none, some (Val.num 2), none, some (Val.num 4)].take 0) ∧
    input_missing_data [⟨"A", [none, some (Val.num 2), none, some (Val.num 4)]⟩]
        ⟨[("A", "ffill")]⟩
      = some [⟨"A", [none, some (Val.num 2), some (Val.num 2), some (Val.num 4)]⟩] :=
  ⟨(claim5_amended ⟨[("A", "ffill")]⟩
      [⟨"A", [none, some (Val.num 2), none, some (Val.num 4)]⟩] "A" "ffill"
      [none, some (Val.num 2), none, some (Val.num 4)] 2 rfl (by decide)).1 rfl,
   (claim5_amended ⟨[("A", "ffill")]⟩
      [⟨"A", [none, some (Val.num 2), none, some (Val.num 4)]⟩] "A" "ffill"
      [none, some (Val.num 2), none, some (Val.num 4)] 2 rfl (by decide)).2.2.2.2.1,
   (claim5_amended ⟨[("A", "ffill")]⟩
      [⟨"A", [none, some (Val.num 2), none, some (Val.num 4)]⟩] "A" "ffill"
      [none, some (Val.num 2), none, some (Val.num 4)] 0 rfl (by decide)).2.2.2.2.1,
   by with_unfolding_all rfl⟩

/-- Claim C7 as stated is false on the code: a `remove` strategy on a
configured column drops rows from every column, the unconfigured ones
included.  Here B is no config section yet loses its second row. -/
theorem claim7_counterexample :
    input_missing_data
        [⟨"A", [some (Val.num 1), none]⟩,
         ⟨"B", [some (Val.str "x"), some (Val.str "y")]⟩]
        ⟨[("A", "remove")]⟩
      = some [⟨"A", [some (Val.num 1)]⟩, ⟨"B", [some (Val.str "x")]⟩] ∧
    getCol [⟨"A", [some (Val.num 1)]⟩, ⟨"B", [some (Val.str "x")]⟩] "B"
      ≠ getCol [⟨"A", [some (Val.num 1), none]⟩,
          ⟨"B", [some (Val.str "x"), some (Val.str "y")]⟩] "B" :=
  ⟨by with_unfolding_all rfl, by decide⟩

/-- Claim C7, amended: in a configuration with no `remove` strategy, every
column whose stripped name is no config section is returned exactly
unchanged by a successful `input_missing_data` run, missing values included. -/
theorem claim7_amended (df d : Dataset) (config : Config) (colB : String)
    (hnr : ∀ p ∈ config.sections, pyLower p.2 ≠ "remove")
    (hB : config.sections.lookup (pyStrip colB) = none)
    (hres : input_missing_data df config = some d) :
    getCol d colB = getCol df colB := by
  rw [input_missing_data] at hres
  cases hrun : runColumns config (df.map Column.name) df with
  | error e => rw [hrun] at hres; exact absurd hres (by simp)
  | ok dall =>
    rw [hrun] at hres
    cases hres
    exact runColumns_unconfigured config hnr (df.map Column.name) df d colB hB hrun

/-- Witness for the amended C7, on the spec's scenario
`A: [1, null, 3], B: [x, null, z]` with only A configured (`mean`): B comes
back untouched, its null included. -/
theorem claim7_amended_witness :
    input_missing_data
        [⟨"A", [some (Val.num 1), none, some (Val.num 3)]⟩,
         ⟨"B", [some (Val.str "x"), none, some (Val.str "z")]⟩]
        ⟨[("A", "mean")]⟩
      = some [⟨"A", [some (Val.num 1), some (Val.num 2), some (Val.num 3)]⟩,
          ⟨"B", [some (Val.str "x"), none, some (Val.str "z")]⟩] ∧
    getCol [⟨"A", [some (Val.num 1), some (Val.num 2), some (Val.num 3)]⟩,
        ⟨"B", [some (Val.str "x"), none, some (Val.str "z")]⟩] "B"
      = getCol [⟨"A", [some (Val.num 1), none, some (Val.num 3)]⟩,
          ⟨"B", [some (Val.str "x"), none, some (Val.str "z")]⟩] "B" :=
  ⟨by with_unfolding_all rfl,
   claim7_amended
     [⟨"A", [some (Val.num 1), none, some (Val.num 3)]⟩,
      ⟨"B", [some (Val.str "x"), none, some (Val.str "z")]⟩]
     [⟨"A", [some (Val.num 1), some (Val.num 2), some (Val.num 3)]⟩,
      ⟨"B", [some (Val.str "x"), none, some (Val.str "z")]⟩]
     ⟨[("A", "mean")]⟩ "B" (by decide) rfl (by with_unfolding_all rfl)⟩

/-- Claim C10 as stated is false on the code: a mode column whose cells are
all missing in the spec's sense but not all null does not make the run fail.
With `A: [""]` the mode of the column is the empty text value itself, the
fill is a no-op, and a cleaned dataset is returned. -/
theorem claim10_counterexample :
    input_missing_data [⟨"A", [some (Val.str "")]⟩] ⟨[("A", "mode")]⟩
      = some [⟨"A", [some (Val.str "")]⟩] ∧
    ([some (Val.str "")] : List Cell).all isMissingValue = true :=
  ⟨by with_unfolding_all rfl, rfl⟩

/-- Claim C10, amended: when a configured column's strategy is `mode` and that
column holds no non-null value at the time it is processed (all cells are the
null marker), `mode()[0]` raises, the broad handler swallows the exception,
and `input_missing_data` returns `None` — even when strategies of earlier
columns had already been applied to the intermediate frame. -/
theorem claim10_amended (df df' : Dataset) (config : Config)
    (pre post : List String) (col raw : String) (c : Column)
    (hnames : df.map Column.name = pre ++ col :: post)
    (hpre : runColumns config pre df = Except.ok df')
    (hlook : config.sections.lookup (pyStrip col) = some raw)
    (hlow : pyLower raw = "mode")
    (hc : getCol df' col = some c)
    (hall : c.cells.all Option.isNone = true) :
    input_missing_data df config = none := by
  have hp : processColumn config df' col
      = Except.error "index 0 out of bounds on empty mode" := by
    rw [processColumn, hlook]
    show dispatch (pyLower raw) col df' = _
    rw [hlow]
    simp only [dispatch, hc, Option.map_some', Option.getD_some,
      eq_self_iff_true, if_true]
    rw [modeVal_eq_none_of_all_none hall]
    rfl
  have herr : runColumns config (col :: post) df'
      = Except.error ⟨col, "index 0 out of bounds on empty mode"⟩ := by
    rw [runColumns, hp]
  have hrun : runColumns config (df.map Column.name) df
      = Except.error ⟨col, "index 0 out of bounds on empty mode"⟩ := by
    rw [hnames, runColumns_append, hpre]
    exact herr
  rw [input_missing_data, hrun]

/-- Witness for the amended C10: the zero strategy on A is applied first, then
the all-null mode column B aborts the pass and `None` comes back. -/
theorem claim10_amended_witness :
    runColumns ⟨[("A", "zero"), ("B", "mode")]⟩ ["A"]
        [⟨"A", [none, some (Val.num 2)]⟩, ⟨"B", [none, none]⟩]
      = Except.ok [⟨"A", [some (Val.num 0), some (Val.num 2)]⟩, ⟨"B", [none, none]⟩] ∧
    ([⟨"A", [some (Val.num 0), some (Val.num 2)]⟩, ⟨"B", [none, none]⟩] : Dataset)
      ≠ [⟨"A", [none, some (Val.num 2)]⟩, ⟨"B", [none, none]⟩] ∧
    input_missing_data [⟨"A", [none, some (Val.num 2)]⟩, ⟨"B", [none, none]⟩]
        ⟨[("A", "zero"), ("B", "mode")]⟩
      = none :=
  ⟨by with_unfolding_all rfl, by decide,
   claim10_amended
     [⟨"A", [none, some (Val.num 2)]⟩, ⟨"B", [none, none]⟩]
     [⟨"A", [some (Val.num 0), some (Val.num 2)]⟩, ⟨"B", [none, none]⟩]
     ⟨[("A", "zero"), ("B", "mode")]⟩ ["A"] [] "B" "mode" ⟨"B", [none, none]⟩
     rfl (by with_unfolding_all rfl) rfl rfl rfl rfl⟩

end Etl
